import Mathlib

/-!
# Testground core subsystems: verification of spec claims

Shallow embedding of the validation, task-storage, coordination and
cluster-admission logic of the testground daemon, with theorems settling
the spec claims C1-C10.
-/

namespace Spec2Proof

/-! ## Task storage (src/pkg/task/storage.go)

Tasks are persisted in LevelDB under three key prefixes; a state
transition moves the task key between prefixes inside one transaction.
-/

/-- An xid task identifier: a time-sortable id. `time` is the embedded
unix timestamp, `repr` the id string itself. -/
structure Xid where
  time : Nat
  repr : String
deriving DecidableEq

/-- Database key prefix for Scheduled tasks (source: `prefixScheduled = "queue"`). -/
def pfxScheduled : String := "queue"

/-- Database key prefix for Processing tasks (source: `prefixProcessing = "current"`). -/
def pfxProcessing : String := "current"

/-- Database key prefix for Complete tasks (source: `prefixComplete = "archive"`). -/
def pfxComplete : String := "archive"

/-- The `<unix-ts>_<xid>` part of a storage key (source: `taskKey`, storage.go:43-51). -/
def tskey (id : Xid) : String := toString id.time ++ "_" ++ id.repr

/-- Full storage key: `<prefix>:<unix-ts>_<xid>` (source: `taskKey`). -/
def taskKey (pre : String) (id : Xid) : String := pre ++ ":" ++ tskey id

/-- The LevelDB key/value store, as a map from keys to stored values. -/
def DB : Type := String → Option String

/-- Write a key (LevelDB `Put`). -/
def DB.put (db : DB) (k v : String) : DB := fun k2 => if k2 = k then some v else db k2

/-- Delete a key (LevelDB `Delete`). -/
def DB.del (db : DB) (k : String) : DB := fun k2 => if k2 = k then none else db k2

/-- Failure-injection points for the steps of the `changePrefix`
transaction: opening the transaction, the `Get`, the `Put`, the `Delete`,
and the final `Commit` can each fail on the storage backend. -/
inductive TxStep where
  | openTx
  | getStep
  | putStep
  | delStep
  | commitStep
deriving DecidableEq

/-- `changePrefix` (storage.go:157-186): move a task key from prefix `src`
to prefix `dst` inside one LevelDB transaction. The transaction reads the
old key, writes the new key under the transaction, deletes the old key,
and commits; on any failure the transaction is discarded. `fail` injects
a backend failure at the given step. The store visible to other readers
changes only at commit, so an error produces no new store. -/
def changePrefix (db : DB) (dst src : String) (id : Xid) (fail : TxStep → Bool) :
    Except String DB :=
  let oldkey := taskKey src id
  let newkey := taskKey dst id
  if fail .openTx then .error ("open transaction failed")
  else
    match (if fail .getStep then none else db oldkey) with
    | none => .error ("leveldb: not found")
    | some val =>
      if fail .putStep then .error ("put failed")
      else
        let shadow := DB.put db newkey val
        if fail .delStep then .error ("delete failed")
        else
          let shadow2 := DB.del shadow oldkey
          if fail .commitStep then .error ("commit failed")
          else .ok shadow2

/-- The store observable after a `changePrefix` call, paired with whether
the call succeeded: an error leaves the persistent store unchanged. -/
def changePrefixState (db : DB) (dst src : String) (id : Xid) (fail : TxStep → Bool) :
    DB × Bool :=
  match changePrefix db dst src id fail with
  | .ok db2 => (db2, true)
  | .error _ => (db, false)

/-- `ProcessTask` (storage.go:148-150): Scheduled → Processing. -/
def processTask (db : DB) (id : Xid) (fail : TxStep → Bool) : DB × Bool :=
  changePrefixState db pfxProcessing pfxScheduled id fail

/-- `ArchiveTask` (storage.go:152-154): Processing → Complete. -/
def archiveTask (db : DB) (id : Xid) (fail : TxStep → Bool) : DB × Bool :=
  changePrefixState db pfxComplete pfxProcessing id fail

/-- How many of the three state prefixes currently hold the task's key. -/
def prefixCount (db : DB) (id : Xid) : Nat :=
  (db (taskKey pfxScheduled id)).isSome.toNat +
    (db (taskKey pfxProcessing id)).isSome.toNat +
    (db (taskKey pfxComplete id)).isSome.toNat

/-- The §8.1 invariant: the task's key lives under exactly one prefix. -/
def exactlyOnePrefix (db : DB) (id : Xid) : Prop := prefixCount db id = 1

theorem key_sched_ne_proc (id : Xid) : taskKey pfxScheduled id ≠ taskKey pfxProcessing id := by
  intro h
  have hl := congrArg String.length h
  have h1 : ("queue" : String).length = 5 := rfl
  have h2 : ("current" : String).length = 7 := rfl
  simp only [taskKey, pfxScheduled, pfxProcessing, String.length_append, h1, h2] at hl
  omega

theorem key_sched_ne_comp (id : Xid) : taskKey pfxScheduled id ≠ taskKey pfxComplete id := by
  intro h
  have hl := congrArg String.length h
  have h1 : ("queue" : String).length = 5 := rfl
  have h2 : ("archive" : String).length = 7 := rfl
  simp only [taskKey, pfxScheduled, pfxComplete, String.length_append, h1, h2] at hl
  omega

theorem key_proc_ne_comp (id : Xid) : taskKey pfxProcessing id ≠ taskKey pfxComplete id := by
  intro h
  have hd := congrArg (fun s => s.data.head?) h
  simp only [taskKey, pfxProcessing, pfxComplete, String.data_append] at hd
  simp [String.data] at hd

/-- A failed `changePrefix` transaction leaves the observable store unchanged. -/
theorem changePfx_fail_unchanged (db : DB) (dst src : String) (id : Xid)
    (fail : TxStep → Bool)
    (h : (changePrefixState db dst src id fail).2 = false) :
    (changePrefixState db dst src id fail).1 = db := by
  unfold changePrefixState at *
  cases hc : changePrefix db dst src id fail <;> simp [hc] at h ⊢

/-- A successful `changePrefix` performs exactly the read/write/delete
move: the source key existed, its value now sits under the destination
key, the source key is gone, and no other key changed. -/
theorem changePfx_ok_spec (db : DB) (dst src : String) (id : Xid)
    (fail : TxStep → Bool)
    (hne : taskKey dst id ≠ taskKey src id)
    (h : (changePrefixState db dst src id fail).2 = true) :
    (db (taskKey src id)).isSome = true ∧
    (changePrefixState db dst src id fail).1 (taskKey dst id) = db (taskKey src id) ∧
    (changePrefixState db dst src id fail).1 (taskKey src id) = none ∧
    ∀ k, k ≠ taskKey dst id → k ≠ taskKey src id →
      (changePrefixState db dst src id fail).1 k = db k := by
  unfold changePrefixState changePrefix at *
  by_cases h0 : fail .openTx
  · simp [h0] at h
  · simp only [h0, Bool.false_eq_true, if_false] at h ⊢
    by_cases h1 : fail .getStep
    · simp [h1] at h
    · simp only [h1, Bool.false_eq_true, if_false] at h ⊢
      cases hv : db (taskKey src id) with
      | none => simp [hv] at h
      | some val =>
        simp only [hv] at h ⊢
        by_cases h2 : fail .putStep
        · simp [h2] at h
        · simp only [h2, Bool.false_eq_true, if_false] at h ⊢
          by_cases h3 : fail .delStep
          · simp [h3] at h
          · simp only [h3, Bool.false_eq_true, if_false] at h ⊢
            by_cases h4 : fail .commitStep
            · simp [h4] at h
            · simp only [h4, Bool.false_eq_true, if_false] at h ⊢
              refine ⟨rfl, ?_, ?_, ?_⟩
              · simp [DB.del, DB.put, hne]
              · simp [DB.del]
              · intro k hk1 hk2
                simp [DB.del, DB.put, hk1, hk2]

/-- C1: for every task, at every point in its lifecycle (including across
restarts, since `DB` is the persistent state), its key is present under
exactly one of the three storage prefixes: both `ProcessTask`
(Scheduled → Processing) and `ArchiveTask` (Processing → Complete)
preserve the exactly-one-prefix invariant; each performs the move as a
single transaction that reads the old key, writes the new key and deletes
the old key; and when the transaction fails at any step the store is left
unchanged. -/
theorem c1_prefix_move_transactional (db : DB) (id : Xid) (fail : TxStep → Bool)
    (hinv : exactlyOnePrefix db id) :
    exactlyOnePrefix (processTask db id fail).1 id ∧
    exactlyOnePrefix (archiveTask db id fail).1 id ∧
    ((processTask db id fail).2 = false → (processTask db id fail).1 = db) ∧
    ((archiveTask db id fail).2 = false → (archiveTask db id fail).1 = db) ∧
    ((processTask db id fail).2 = true →
      (processTask db id fail).1 (taskKey pfxProcessing id) = db (taskKey pfxScheduled id) ∧
      (processTask db id fail).1 (taskKey pfxScheduled id) = none ∧
      ∀ k, k ≠ taskKey pfxProcessing id → k ≠ taskKey pfxScheduled id →
        (processTask db id fail).1 k = db k) ∧
    ((archiveTask db id fail).2 = true →
      (archiveTask db id fail).1 (taskKey pfxComplete id) = db (taskKey pfxProcessing id) ∧
      (archiveTask db id fail).1 (taskKey pfxProcessing id) = none ∧
      ∀ k, k ≠ taskKey pfxComplete id → k ≠ taskKey pfxProcessing id →
        (archiveTask db id fail).1 k = db k) := by
  have hps := key_sched_ne_proc id
  have hsc := key_sched_ne_comp id
  have hpc := key_proc_ne_comp id
  have hproc : ∀ h2 : (processTask db id fail).2 = true, _ :=
    fun h2 => changePfx_ok_spec db pfxProcessing pfxScheduled id fail (Ne.symm hps) h2
  have harch : ∀ h2 : (archiveTask db id fail).2 = true, _ :=
    fun h2 => changePfx_ok_spec db pfxComplete pfxProcessing id fail (Ne.symm hpc) h2
  refine ⟨?_, ?_, ?_, ?_, fun h2 => (hproc h2).2, fun h2 => (harch h2).2⟩
  · cases h2 : (processTask db id fail).2 with
    | false =>
      have := changePfx_fail_unchanged db pfxProcessing pfxScheduled id fail h2
      unfold processTask at *
      rw [this]; exact hinv
    | true =>
      obtain ⟨hsome, hdst, hsrc, hrest⟩ := hproc h2
      unfold exactlyOnePrefix prefixCount processTask at *
      rw [hdst, hsrc, hrest _ (Ne.symm hpc) (Ne.symm hsc)]
      cases hv : db (taskKey pfxScheduled id) with
      | none => rw [hv] at hsome; simp at hsome
      | some v =>
        rw [hv] at hinv
        simp only [Option.isSome_some, Option.isSome_none, Bool.toNat_true,
          Bool.toNat_false] at hinv ⊢
        omega
  · cases h2 : (archiveTask db id fail).2 with
    | false =>
      have := changePfx_fail_unchanged db pfxComplete pfxProcessing id fail h2
      unfold archiveTask at *
      rw [this]; exact hinv
    | true =>
      obtain ⟨hsome, hdst, hsrc, hrest⟩ := harch h2
      unfold exactlyOnePrefix prefixCount archiveTask at *
      rw [hdst, hsrc, hrest _ hsc hps]
      cases hv : db (taskKey pfxProcessing id) with
      | none => rw [hv] at hsome; simp at hsome
      | some v =>
        rw [hv] at hinv
        simp only [Option.isSome_some, Option.isSome_none, Bool.toNat_true,
          Bool.toNat_false] at hinv ⊢
        omega
  · exact changePfx_fail_unchanged db pfxProcessing pfxScheduled id fail
  · exact changePfx_fail_unchanged db pfxComplete pfxProcessing id fail

/-- A concrete xid for the C1 witness. -/
def xidC1 : Xid := ⟨5, "bs3v62rbd55kj1pvb92g"⟩

/-- A concrete store holding exactly one Scheduled task. -/
def dbC1 : DB := fun k => if k = taskKey pfxScheduled xidC1 then some ("payload") else none

/-- No injected backend failures. -/
def noFail : TxStep → Bool := fun _ => false

/-- Witness for C1: the invariant hypothesis holds on the concrete store
`dbC1`, and the theorem applies there. -/
theorem c1_prefix_move_transactional_witness :
    exactlyOnePrefix dbC1 xidC1 ∧
      exactlyOnePrefix (processTask dbC1 xidC1 noFail).1 xidC1 :=
  ⟨by unfold exactlyOnePrefix; decide,
    (c1_prefix_move_transactional dbC1 xidC1 noFail
      (by unfold exactlyOnePrefix; decide)).1⟩

/-! ## Composition validation (src/unnamed/part_004, package api)

Only the fields that the validation logic reads are embedded. The
`Percentage` field is a float64 in the source; it is modelled as a
rational. -/

/-- `Instances`: either an explicit count or a percentage of the total. -/
structure Instances where
  count : Nat
  percentage : ℚ
deriving DecidableEq

/-- One composition group (validation-relevant fields). -/
structure Group where
  id : String
  builder : String
  instances : Instances
deriving DecidableEq

/-- `Global` composition section (validation-relevant fields). -/
structure Global where
  builder : String
  totalInstances : Nat
deriving DecidableEq

/-- A group entry of a run. Modelled from the spec: each run references
an existing group ID; the reference (`EffectiveGroupId`) defaults to the
entry's own id when no explicit group id is given, since the accessor is
not part of this snapshot. -/
structure RunGroupRef where
  id : String
  groupId : String
deriving DecidableEq

/-- One entry of the composition's `Runs` section (source type `Run`). -/
structure RunItem where
  id : String
  groups : List RunGroupRef
deriving DecidableEq

/-- A composition (validation-relevant fields). -/
structure Composition where
  global : Global
  groups : List Group
  runs : List RunItem
deriving DecidableEq

/-- The group id a run group entry refers to. -/
def EffectiveGroupId (r : RunGroupRef) : String :=
  if r.groupId = "" then r.id else r.groupId

/-- `Composition.getGroup`: look up a group by id. -/
def getGroup (c : Composition) (id : String) : Option Group :=
  c.groups.find? (fun g => g.id == id)

/-- Scan a list left to right keeping a set of seen ids; return the first
repeated one (the duplicate the source loops report). -/
def firstDupAux (seen : List String) : List String → Option String
  | [] => none
  | x :: xs => if x ∈ seen then some x else firstDupAux (x :: seen) xs

/-- First duplicated id of a list, if any. -/
def firstDup (l : List String) : Option String := firstDupAux [] l

/-- Run `f` on each element, stopping at the first error (the shape of the
source's validation loops). -/
def forEachErr : List α → (α → Except String Unit) → Except String Unit
  | [], _ => .ok ()
  | x :: xs, f =>
    match f x with
    | .error e => .error e
    | .ok _ => forEachErr xs f

/-- Whether an `Except` is a success. -/
def exceptOk : Except String α → Bool
  | .ok _ => true
  | .error _ => false

/-- `ValidateInstances` (part_004:132-141) as a predicate: either count or
percentage is provided, but not both: `(Count == 0 || Percentage == 0) &&
(Count + Percentage > 0)`. -/
def validateInstancesOk (i : Instances) : Bool :=
  (i.count == 0 || decide (i.percentage = 0)) &&
    decide ((0 : ℚ) < (i.count : ℚ) + i.percentage)

/-- The struct-level validation `compositionValidator.Struct(c)`: the
registered `ValidateInstances` check runs on every group's `Instances`.
(The snapshot does not carry the `Composition` struct-tag list; the
registered check is the struct-level validation embedded here.) -/
def structValidate (c : Composition) : Except String Unit :=
  forEachErr c.groups (fun g =>
    if validateInstancesOk g.instances then .ok ()
    else .error ("Instances validation failed on the count_or_percentage tag"))

/-- `Groups.Validate` (part_004:16-34): group ids unique, and every group
has a builder (group-level or global). -/
def groupsValidate (c : Composition) : Except String Unit :=
  match firstDup (c.groups.map (fun g => g.id)) with
  | some g => .error ("group ids not unique; found duplicate: " ++ g)
  | none =>
    match c.groups.find? (fun g => g.builder == "" && c.global.builder == "") with
    | some g => .error ("group " ++ g.id ++ " is missing a builder")
    | none => .ok ()

/-- The per-run body of `Runs.Validate` (part_004:47-64): referenced
groups exist, and group ids within the run are unique. -/
def validateRunItem (c : Composition) (r : RunItem) : Except String Unit :=
  match r.groups.find? (fun g => (getGroup c (EffectiveGroupId g)).isNone) with
  | some g => .error ("run " ++ r.id ++ ":" ++ g.id ++
      " references non-existent group " ++ EffectiveGroupId g)
  | none =>
    match firstDup (r.groups.map (fun g => g.id)) with
    | some x => .error ("group ids not unique; found duplicate: " ++ r.id ++ ":" ++ x)
    | none => .ok ()

/-- `Runs.Validate` (part_004:36-67): run ids unique, then each run's body. -/
def runsValidate (c : Composition) : Except String Unit :=
  match firstDup (c.runs.map (fun r => r.id)) with
  | some r => .error ("runs ids not unique; found duplicate: " ++ r)
  | none => forEachErr c.runs (validateRunItem c)

/-- `uint(math.Round(...))` on the modelled rationals. For the
non-negative values that reach this point, Go's round-half-away-from-zero
agrees with `round` (round half up). -/
def roundQ (q : ℚ) : Nat := (round q).toNat

/-- The group's calculated instance count (part_004:113-115): the explicit
count, or, when that is zero, `round(percentage * totalInstances)`. -/
def calculatedInstanceCnt (total : Nat) (g : Group) : Nat :=
  if g.instances.count = 0 then roundQ (g.instances.percentage * (total : ℚ))
  else g.instances.count

/-- The sum of calculated instance counts across groups. The source
accumulates this in the same per-group loop that checks
percentage-without-total; the fused loop is split here into the
`find?` below plus this sum, with identical error/ok outcome. -/
def computedTotal (c : Composition) : Nat :=
  (c.groups.map (calculatedInstanceCnt c.global.totalInstances)).sum

/-- `Composition.ValidateForRun` (part_004:85-128). Returns the (mutated)
composition on success: `c.Global.TotalInstances` is overwritten with the
computed total. -/
def ValidateForRun (c : Composition) : Except String Composition :=
  match structValidate c with
  | .error e => .error e
  | .ok _ =>
  match groupsValidate c with
  | .error e => .error e
  | .ok _ =>
  match runsValidate c with
  | .error e => .error e
  | .ok _ =>
  match c.groups.find? (fun g =>
      decide ((0 : ℚ) < g.instances.percentage) && c.global.totalInstances == 0) with
  | some _ => .error ("groups count percentage requires a total_instance configuration")
  | none =>
  if 0 < c.global.totalInstances ∧ c.global.totalInstances ≠ computedTotal c then
    .error ("sum of calculated instances per group doesn't match total")
  else
    let c2 : Composition :=
      { c with global := { c.global with totalInstances := computedTotal c } }
    match groupsValidate c2 with
    | .error e => .error e
    | .ok _ => .ok c2

theorem firstDupAux_eq_none_iff (l : List String) :
    ∀ seen, firstDupAux seen l = none ↔ l.Nodup ∧ ∀ x ∈ l, x ∉ seen := by
  induction l with
  | nil => intro seen; simp [firstDupAux]
  | cons x xs ih =>
    intro seen
    by_cases hx : x ∈ seen
    · simp [firstDupAux, hx]
    · simp only [firstDupAux, if_neg hx, ih, List.nodup_cons, List.mem_cons]
      constructor
      · rintro ⟨h1, h2⟩
        refine ⟨⟨fun hmem => (h2 x hmem) (Or.inl rfl), h1⟩, ?_⟩
        rintro y (rfl | hy)
        · exact hx
        · exact fun hs => (h2 y hy) (Or.inr hs)
      · rintro ⟨⟨hxxs, h1⟩, h2⟩
        refine ⟨h1, fun y hy => ?_⟩
        rintro (rfl | hs)
        · exact hxxs hy
        · exact (h2 y (Or.inr hy)) hs

theorem firstDup_eq_none_iff (l : List String) : firstDup l = none ↔ l.Nodup := by
  unfold firstDup
  rw [firstDupAux_eq_none_iff]
  simp

theorem forEachErr_ok_iff (l : List α) (f : α → Except String Unit) :
    exceptOk (forEachErr l f) = true ↔ ∀ x ∈ l, exceptOk (f x) = true := by
  induction l with
  | nil => simp [forEachErr, exceptOk]
  | cons x xs ih =>
    simp only [forEachErr, List.forall_mem_cons]
    cases hf : f x with
    | error e => simp [exceptOk, hf]
    | ok u =>
      simp only [hf]
      rw [ih]
      have hx : exceptOk (Except.ok (ε := String) u) = true := rfl
      rw [hx]
      simp

theorem groupsValidate_ok_iff (c : Composition) :
    exceptOk (groupsValidate c) = true ↔
      (c.groups.map (fun g => g.id)).Nodup ∧
        ∀ g ∈ c.groups, ¬(g.builder = "" ∧ c.global.builder = "") := by
  unfold groupsValidate
  cases hd : firstDup (c.groups.map (fun g => g.id)) with
  | some g =>
    have : ¬ (c.groups.map (fun g => g.id)).Nodup := by
      intro hn
      rw [← firstDup_eq_none_iff] at hn
      rw [hd] at hn
      exact Option.noConfusion hn
    simp [exceptOk, this]
  | none =>
    rw [firstDup_eq_none_iff] at hd
    cases hf : c.groups.find? (fun g => g.builder == "" && c.global.builder == "") with
    | some g =>
      have hmem := List.mem_of_find?_eq_some hf
      have hp := List.find?_some hf
      simp only [Bool.and_eq_true, beq_iff_eq] at hp
      simp only [exceptOk, hd, true_and, Bool.false_eq_true, false_iff]
      intro hall
      exact hall g hmem hp
    | none =>
      rw [List.find?_eq_none] at hf
      simp only [exceptOk, hd, true_and, true_iff]
      intro g hg hand
      have := hf g hg
      simp only [Bool.and_eq_true, beq_iff_eq] at this
      exact this hand

theorem structValidate_ok_iff (c : Composition) :
    exceptOk (structValidate c) = true ↔
      ∀ g ∈ c.groups, validateInstancesOk g.instances = true := by
  unfold structValidate
  rw [forEachErr_ok_iff]
  constructor
  · intro h g hg
    have := h g hg
    by_contra hv
    rw [if_neg hv] at this
    simp [exceptOk] at this
  · intro h g hg
    rw [if_pos (h g hg)]
    rfl

theorem validateRunItem_ok_iff (c : Composition) (r : RunItem) :
    exceptOk (validateRunItem c r) = true ↔
      (∀ g ∈ r.groups, (getGroup c (EffectiveGroupId g)).isSome = true) ∧
        (r.groups.map (fun g => g.id)).Nodup := by
  unfold validateRunItem
  cases hf : r.groups.find? (fun g => (getGroup c (EffectiveGroupId g)).isNone) with
  | some g =>
    have hmem := List.mem_of_find?_eq_some hf
    have hp := List.find?_some hf
    simp only [exceptOk, Bool.false_eq_true, false_iff]
    rintro ⟨hall, -⟩
    have := hall g hmem
    rw [Option.isNone_iff_eq_none] at hp
    rw [hp] at this
    simp at this
  | none =>
    rw [List.find?_eq_none] at hf
    have hall : ∀ g ∈ r.groups, (getGroup c (EffectiveGroupId g)).isSome = true := by
      intro g hg
      have := hf g hg
      simpa [Option.isNone_iff_eq_none, Option.isSome_iff_ne_none] using this
    cases hd : firstDup (r.groups.map (fun g => g.id)) with
    | some x =>
      have : ¬ (r.groups.map (fun g => g.id)).Nodup := by
        intro hn
        rw [← firstDup_eq_none_iff] at hn
        rw [hd] at hn
        exact Option.noConfusion hn
      simp [exceptOk, this, hall]
    | none =>
      rw [firstDup_eq_none_iff] at hd
      simp [exceptOk, hd]
      exact hall

theorem runsValidate_ok_iff (c : Composition) :
    exceptOk (runsValidate c) = true ↔
      (c.runs.map (fun r => r.id)).Nodup ∧
        ∀ r ∈ c.runs,
          (∀ g ∈ r.groups, (getGroup c (EffectiveGroupId g)).isSome = true) ∧
            (r.groups.map (fun g => g.id)).Nodup := by
  unfold runsValidate
  cases hd : firstDup (c.runs.map (fun r => r.id)) with
  | some x =>
    have : ¬ (c.runs.map (fun r => r.id)).Nodup := by
      intro hn
      rw [← firstDup_eq_none_iff] at hn
      rw [hd] at hn
      exact Option.noConfusion hn
    simp [exceptOk, this]
  | none =>
    rw [firstDup_eq_none_iff] at hd
    rw [forEachErr_ok_iff]
    simp only [hd, true_and]
    constructor
    · intro h r hr
      exact (validateRunItem_ok_iff c r).mp (h r hr)
    · intro h r hr
      exact (validateRunItem_ok_iff c r).mpr (h r hr)

/-- Only group ids and builders feed `Groups.Validate`; overwriting the
global total does not change its outcome. -/
theorem groupsValidate_set_total (c : Composition) (t : Nat) :
    groupsValidate { c with global := { c.global with totalInstances := t } } =
      groupsValidate c := rfl

/-- Full success characterization of `ValidateForRun`. -/
theorem validateForRun_ok_iff (c : Composition) :
    exceptOk (ValidateForRun c) = true ↔
      (∀ g ∈ c.groups, validateInstancesOk g.instances = true) ∧
      (c.groups.map (fun g => g.id)).Nodup ∧
      (∀ g ∈ c.groups, ¬(g.builder = "" ∧ c.global.builder = "")) ∧
      (c.runs.map (fun r => r.id)).Nodup ∧
      (∀ r ∈ c.runs,
        (∀ g ∈ r.groups, (getGroup c (EffectiveGroupId g)).isSome = true) ∧
          (r.groups.map (fun g => g.id)).Nodup) ∧
      (∀ g ∈ c.groups, ¬(0 < g.instances.percentage ∧ c.global.totalInstances = 0)) ∧
      ¬(0 < c.global.totalInstances ∧ c.global.totalInstances ≠ computedTotal c) := by
  unfold ValidateForRun
  cases hs : structValidate c with
  | error e =>
    have : exceptOk (structValidate c) = false := by rw [hs]; rfl
    have hns := (structValidate_ok_iff c)
    rw [this] at hns
    simp only [Bool.false_eq_true, false_iff] at hns
    simp only [exceptOk, Bool.false_eq_true, false_iff]
    intro hconj
    exact hns hconj.1
  | ok u =>
    have h1 : ∀ g ∈ c.groups, validateInstancesOk g.instances = true :=
      (structValidate_ok_iff c).mp (by rw [hs]; rfl)
    cases hg : groupsValidate c with
    | error e =>
      have : exceptOk (groupsValidate c) = false := by rw [hg]; rfl
      have hng := groupsValidate_ok_iff c
      rw [this] at hng
      simp only [Bool.false_eq_true, false_iff] at hng
      simp only [exceptOk, Bool.false_eq_true, false_iff]
      intro hconj
      exact hng ⟨hconj.2.1, hconj.2.2.1⟩
    | ok u2 =>
      obtain ⟨h2, h3⟩ := (groupsValidate_ok_iff c).mp (by rw [hg]; rfl)
      cases hr : runsValidate c with
      | error e =>
        have : exceptOk (runsValidate c) = false := by rw [hr]; rfl
        have hnr := runsValidate_ok_iff c
        rw [this] at hnr
        simp only [Bool.false_eq_true, false_iff] at hnr
        simp only [exceptOk, Bool.false_eq_true, false_iff]
        intro hconj
        exact hnr ⟨hconj.2.2.2.1, hconj.2.2.2.2.1⟩
      | ok u3 =>
        obtain ⟨h4, h5⟩ := (runsValidate_ok_iff c).mp (by rw [hr]; rfl)
        cases hp : c.groups.find? (fun g =>
            decide ((0 : ℚ) < g.instances.percentage) && c.global.totalInstances == 0) with
        | some g =>
          have hmem := List.mem_of_find?_eq_some hp
          have hpg := List.find?_some hp
          simp only [Bool.and_eq_true, decide_eq_true_eq, beq_iff_eq] at hpg
          simp only [exceptOk, Bool.false_eq_true, false_iff]
          intro hconj
          exact hconj.2.2.2.2.2.1 g hmem hpg
        | none =>
          rw [List.find?_eq_none] at hp
          have h6 : ∀ g ∈ c.groups, ¬(0 < g.instances.percentage ∧ c.global.totalInstances = 0) := by
            intro g hgm hand
            have := hp g hgm
            simp only [Bool.and_eq_true, decide_eq_true_eq, beq_iff_eq] at this
            exact this hand
          by_cases hm : 0 < c.global.totalInstances ∧ c.global.totalInstances ≠ computedTotal c
          · rw [if_pos hm]
            simp only [exceptOk, Bool.false_eq_true, false_iff]
            intro hconj
            exact hconj.2.2.2.2.2.2 hm
          · rw [if_neg hm]
            have hg2 : groupsValidate
                { c with global := { c.global with totalInstances := computedTotal c } } =
                Except.ok u2 := (groupsValidate_set_total c (computedTotal c)).trans hg
            simp only [hg2, exceptOk]
            simp [h1, h2, h3, h4, h5, h6, hm]
            refine ⟨h1, ?_, h5, ?_⟩
            · intro g hgm hb hgl
              exact h3 g hgm ⟨hb, hgl⟩
            · intro g hgm hpos h0
              exact h6 g hgm ⟨hpos, h0⟩

/-- For nonnegative percentages the structural instances check fails
exactly when both fields are set or neither is. -/
theorem validateInstancesOk_false_iff (n : Nat) (p : ℚ) (hp : 0 ≤ p) :
    validateInstancesOk ⟨n, p⟩ = false ↔ (n ≠ 0 ∧ p ≠ 0) ∨ (n = 0 ∧ p = 0) := by
  simp only [validateInstancesOk]
  by_cases hc : n = 0
  · subst hc
    by_cases hq : p = 0
    · subst hq
      simp
    · have hpos : 0 < p := lt_of_le_of_ne hp (Ne.symm hq)
      simp [hq, hpos]
  · by_cases hq : p = 0
    · subst hq
      have hpos : (0 : ℚ) < (n : ℚ) + 0 := by
        have h1 : (1 : ℚ) ≤ (n : ℚ) := by exact_mod_cast Nat.one_le_iff_ne_zero.mpr hc
        linarith
      simp [hc, hpos]
    · simp [hc, hq]

/-- The rejection conditions exactly as the claim lists them: duplicate
group ids; both count and percentage set; neither set; percentage without
a total; resolved counts not summing to the total when it is set. -/
def c2ListedRejection (c : Composition) : Prop :=
  ¬ (c.groups.map (fun g => g.id)).Nodup ∨
    (∃ g ∈ c.groups, g.instances.count ≠ 0 ∧ g.instances.percentage ≠ 0) ∨
    (∃ g ∈ c.groups, g.instances.count = 0 ∧ g.instances.percentage = 0) ∨
    (∃ g ∈ c.groups, 0 < g.instances.percentage ∧ c.global.totalInstances = 0) ∨
    (0 < c.global.totalInstances ∧ computedTotal c ≠ c.global.totalInstances)

/-- A group without a group-level builder when no global builder is set. -/
def builderRejection (c : Composition) : Prop :=
  ∃ g ∈ c.groups, g.builder = "" ∧ c.global.builder = ""

/-- An ill-formed `Runs` section: duplicate run ids, a reference to a
non-existent group, or duplicate group ids within one run. -/
def runsRejection (c : Composition) : Prop :=
  ¬ (c.runs.map (fun r => r.id)).Nodup ∨
    ∃ r ∈ c.runs,
      (∃ g ∈ r.groups, getGroup c (EffectiveGroupId g) = none) ∨
        ¬ (r.groups.map (fun g => g.id)).Nodup

/-- A composition that is well-formed by every condition in the claim's
list, yet carries no builder anywhere. -/
def compMissingBuilder : Composition :=
  { global := { builder := "", totalInstances := 0 },
    groups := [{ id := "g1", builder := "", instances := { count := 1, percentage := 0 } }],
    runs := [] }

/-- C2 counterexample: `ValidateForRun` rejects `compMissingBuilder`
although it matches none of the claim's listed rejection conditions, so
the claim's "exactly these" enumeration is incomplete. -/
theorem c2_exact_rejection_counterexample :
    exceptOk (ValidateForRun compMissingBuilder) = false ∧
      ¬ c2ListedRejection compMissingBuilder := by
  constructor
  · cases hv : exceptOk (ValidateForRun compMissingBuilder) with
    | false => rfl
    | true =>
      exfalso
      have h := (validateForRun_ok_iff compMissingBuilder).mp hv
      have hb := h.2.2.1 ⟨"g1", "", ⟨1, 0⟩⟩ (by simp [compMissingBuilder])
      exact hb ⟨rfl, rfl⟩
  · unfold c2ListedRejection computedTotal
    decide

set_option maxHeartbeats 2000000 in
/-- C2 (amended): for compositions with nonnegative percentage fields,
`ValidateForRun` rejects exactly: the claim's listed conditions (duplicate
group ids; both count and percentage set; neither set; percentage without
a total; resolved counts not summing to a set total), and additionally a
group lacking both a group-level and a global builder, and an ill-formed
`Runs` section (duplicate run ids, reference to a non-existent group, or
duplicate group ids within one run). -/
theorem c2_run_validation_rejects (c : Composition)
    (hperc : ∀ g ∈ c.groups, 0 ≤ g.instances.percentage) :
    exceptOk (ValidateForRun c) = false ↔
      c2ListedRejection c ∨ builderRejection c ∨ runsRejection c := by
  have hbf : exceptOk (ValidateForRun c) = false ↔
      ¬(exceptOk (ValidateForRun c) = true) := by
    cases exceptOk (ValidateForRun c) <;> simp
  rw [hbf, validateForRun_ok_iff]
  have e1 : (¬ ∀ g ∈ c.groups, validateInstancesOk g.instances = true) ↔
      ((∃ g ∈ c.groups, g.instances.count ≠ 0 ∧ g.instances.percentage ≠ 0) ∨
        (∃ g ∈ c.groups, g.instances.count = 0 ∧ g.instances.percentage = 0)) := by
    constructor
    · intro h
      push_neg at h
      obtain ⟨g, hg, hv⟩ := h
      have hb : validateInstancesOk g.instances = false := by
        cases hval : validateInstancesOk g.instances
        · rfl
        · exact absurd hval hv
      have hgi : validateInstancesOk ⟨g.instances.count, g.instances.percentage⟩ = false := hb
      rcases (validateInstancesOk_false_iff g.instances.count g.instances.percentage
          (hperc g hg)).mp hgi with hcase | hcase
      · exact Or.inl ⟨g, hg, hcase⟩
      · exact Or.inr ⟨g, hg, hcase⟩
    · rintro (⟨g, hg, hcase⟩ | ⟨g, hg, hcase⟩) hall <;>
      · have := hall g hg
        have hgi : validateInstancesOk ⟨g.instances.count, g.instances.percentage⟩ = true := this
        have hfalse := (validateInstancesOk_false_iff g.instances.count g.instances.percentage
          (hperc g hg))
        rw [hgi] at hfalse
        simp only [Bool.true_eq_false, false_iff] at hfalse
        exact hfalse (by first | exact Or.inl hcase | exact Or.inr hcase)
  have e3 : (¬ ∀ g ∈ c.groups, ¬(g.builder = "" ∧ c.global.builder = "")) ↔
      builderRejection c := by
    unfold builderRejection
    push_neg
    constructor
    · intro h
      obtain ⟨g, hg, h1, h2⟩ := h
      exact ⟨g, hg, h1, h2⟩
    · intro h
      obtain ⟨g, hg, h1, h2⟩ := h
      exact ⟨g, hg, h1, h2⟩
  have e5 : (¬ ∀ r ∈ c.runs,
      (∀ g ∈ r.groups, (getGroup c (EffectiveGroupId g)).isSome = true) ∧
        (r.groups.map (fun g => g.id)).Nodup) ↔
      (∃ r ∈ c.runs,
        (∃ g ∈ r.groups, getGroup c (EffectiveGroupId g) = none) ∨
          ¬ (r.groups.map (fun g => g.id)).Nodup) := by
    constructor
    · intro h
      push_neg at h
      obtain ⟨r, hr, hv⟩ := h
      refine ⟨r, hr, ?_⟩
      by_cases hn : (r.groups.map (fun g => g.id)).Nodup
      · left
        have : ¬ ∀ g ∈ r.groups, (getGroup c (EffectiveGroupId g)).isSome = true := by
          intro hall
          exact hv hall hn
        push_neg at this
        obtain ⟨g, hg, hgs⟩ := this
        exact ⟨g, hg, Option.not_isSome_iff_eq_none.mp hgs⟩
      · exact Or.inr hn
    · rintro ⟨r, hr, hcase | hcase⟩ hall
      · obtain ⟨g, hg, hgn⟩ := hcase
        have := (hall r hr).1 g hg
        rw [hgn] at this
        simp at this
      · exact hcase (hall r hr).2
  have e6 : (¬ ∀ g ∈ c.groups, ¬(0 < g.instances.percentage ∧ c.global.totalInstances = 0)) ↔
      (∃ g ∈ c.groups, 0 < g.instances.percentage ∧ c.global.totalInstances = 0) := by
    push_neg
    constructor
    · intro h
      obtain ⟨g, hg, h1, h2⟩ := h
      exact ⟨g, hg, h1, h2⟩
    · intro h
      obtain ⟨g, hg, h1, h2⟩ := h
      exact ⟨g, hg, h1, h2⟩
  have e7 : (¬ ¬(0 < c.global.totalInstances ∧ c.global.totalInstances ≠ computedTotal c)) ↔
      (0 < c.global.totalInstances ∧ computedTotal c ≠ c.global.totalInstances) := by
    rw [not_not]
    constructor
    · intro h
      exact ⟨h.1, Ne.symm h.2⟩
    · intro h
      exact ⟨h.1, Ne.symm h.2⟩
  unfold c2ListedRejection runsRejection
  rw [not_and_or, not_and_or, not_and_or, not_and_or, not_and_or, not_and_or]
  rw [e1, e3, e5, e6, e7]
  constructor
  · rintro ((h | h) | h | h | h | h | h | h)
    · exact Or.inl (Or.inr (Or.inl h))
    · exact Or.inl (Or.inr (Or.inr (Or.inl h)))
    · exact Or.inl (Or.inl h)
    · exact Or.inr (Or.inl h)
    · exact Or.inr (Or.inr (Or.inl h))
    · exact Or.inr (Or.inr (Or.inr h))
    · exact Or.inl (Or.inr (Or.inr (Or.inr (Or.inl h))))
    · exact Or.inl (Or.inr (Or.inr (Or.inr (Or.inr h))))
  · rintro ((h | h | h | h | h) | h | h | h)
    · exact Or.inr (Or.inl h)
    · exact Or.inl (Or.inl h)
    · exact Or.inl (Or.inr h)
    · exact Or.inr (Or.inr (Or.inr (Or.inr (Or.inr (Or.inl h)))))
    · exact Or.inr (Or.inr (Or.inr (Or.inr (Or.inr (Or.inr h)))))
    · exact Or.inr (Or.inr (Or.inl h))
    · exact Or.inr (Or.inr (Or.inr (Or.inl h)))
    · exact Or.inr (Or.inr (Or.inr (Or.inr (Or.inl h))))

/-- Witness for C2: the amended equivalence applied at a concrete
composition. -/
theorem c2_run_validation_rejects_witness :
    (∀ g ∈ compMissingBuilder.groups, 0 ≤ g.instances.percentage) ∧
      (exceptOk (ValidateForRun compMissingBuilder) = false ↔
        c2ListedRejection compMissingBuilder ∨ builderRejection compMissingBuilder ∨
          runsRejection compMissingBuilder) :=
  ⟨by decide, c2_run_validation_rejects compMissingBuilder (by decide)⟩

theorem exceptOk_true_elim (e : Except String Unit) (h : exceptOk e = true) :
    e = .ok () := by
  cases e with
  | ok u => cases u; rfl
  | error s => simp [exceptOk] at h

/-- C10: when `Global.TotalInstances` is zero (unset) and every group
carries an explicit count (the other validation conditions holding),
`ValidateForRun` succeeds and returns the composition with
`Global.TotalInstances` overwritten by the sum of the group counts —
validation mutates the composition and infers the missing total instead
of rejecting it. -/
theorem c10_validateForRun_infers_total (c : Composition)
    (htot : c.global.totalInstances = 0)
    (hcnt : ∀ g ∈ c.groups, g.instances.count ≠ 0)
    (hxor : ∀ g ∈ c.groups, g.instances.percentage = 0)
    (hids : (c.groups.map (fun g => g.id)).Nodup)
    (hb : ∀ g ∈ c.groups, ¬(g.builder = "" ∧ c.global.builder = ""))
    (hrids : (c.runs.map (fun r => r.id)).Nodup)
    (hruns : ∀ r ∈ c.runs,
      (∀ g ∈ r.groups, (getGroup c (EffectiveGroupId g)).isSome = true) ∧
        (r.groups.map (fun g => g.id)).Nodup) :
    ValidateForRun c =
      .ok { c with global := { c.global with
              totalInstances := (c.groups.map (fun g => g.instances.count)).sum } } ∧
      (c.groups ≠ [] →
        (c.groups.map (fun g => g.instances.count)).sum ≠ c.global.totalInstances) := by
  have hvi : ∀ g ∈ c.groups, validateInstancesOk g.instances = true := by
    intro g hg
    have h1 : g.instances.count ≠ 0 := hcnt g hg
    have h2 : g.instances.percentage = 0 := hxor g hg
    unfold validateInstancesOk
    rw [h2]
    have hpos : (0 : ℚ) < (g.instances.count : ℚ) + 0 := by
      have : (1 : ℚ) ≤ (g.instances.count : ℚ) := by
        exact_mod_cast Nat.one_le_iff_ne_zero.mpr h1
      linarith
    simp [hpos]
    omega
  have hsv : structValidate c = .ok () :=
    exceptOk_true_elim _ ((structValidate_ok_iff c).mpr hvi)
  have hgv : groupsValidate c = .ok () :=
    exceptOk_true_elim _ ((groupsValidate_ok_iff c).mpr ⟨hids, hb⟩)
  have hrv : runsValidate c = .ok () :=
    exceptOk_true_elim _ ((runsValidate_ok_iff c).mpr ⟨hrids, hruns⟩)
  have hfind : c.groups.find? (fun g =>
      decide ((0 : ℚ) < g.instances.percentage) && c.global.totalInstances == 0) = none := by
    rw [List.find?_eq_none]
    intro g hg
    rw [hxor g hg]
    simp
  have hct : computedTotal c = (c.groups.map (fun g => g.instances.count)).sum := by
    unfold computedTotal
    congr 1
    apply List.map_congr_left
    intro g hg
    unfold calculatedInstanceCnt
    rw [if_neg (hcnt g hg)]
  have hif : ¬(0 < c.global.totalInstances ∧ c.global.totalInstances ≠ computedTotal c) := by
    rw [htot]
    simp
  have hgv2 : groupsValidate
      { c with global := { c.global with totalInstances := computedTotal c } } = .ok () :=
    (groupsValidate_set_total c (computedTotal c)).trans hgv
  constructor
  · unfold ValidateForRun
    rw [hsv, hgv, hrv, hfind, if_neg hif]
    simp only [hgv2]
    rw [hct]
  · intro hne h0
    rw [htot] at h0
    rw [List.sum_eq_zero_iff] at h0
    cases hgl : c.groups with
    | nil => exact hne hgl
    | cons g gs =>
      have hgmem : g ∈ c.groups := by rw [hgl]; exact List.mem_cons_self g gs
      have : g.instances.count = 0 := by
        apply h0
        exact List.mem_map_of_mem (fun g => g.instances.count) hgmem
      exact hcnt g hgmem this

/-- A concrete composition with two explicit-count groups and no total. -/
def compC10 : Composition :=
  { global := { builder := "docker:go", totalInstances := 0 },
    groups := [{ id := "g1", builder := "", instances := { count := 2, percentage := 0 } },
               { id := "g2", builder := "", instances := { count := 3, percentage := 0 } }],
    runs := [] }

/-- Witness for C10: the theorem applied at `compC10` (total 0, counts
2 and 3) yields the mutated composition with total 5. -/
theorem c10_validateForRun_infers_total_witness :
    ValidateForRun compC10 =
      .ok { compC10 with global := { compC10.global with
              totalInstances := (compC10.groups.map (fun g => g.instances.count)).sum } } ∧
      (compC10.groups ≠ [] →
        (compC10.groups.map (fun g => g.instances.count)).sum ≠
          compC10.global.totalInstances) :=
  c10_validateForRun_infers_total compC10 (by decide) (by decide) (by decide)
    (by decide) (by decide) (by decide) (by decide)

/-! ## Coordination service state (src/pkg/sync/service_state.go)

The backing Redis keyspace is modelled as a map from state keys to int64
counters; an unset key reads as zero and `INCR` atomically adds one and
returns the new value. -/

/-- The counter keyspace. -/
def Counters : Type := String → Int

/-- `DefaultService.SignalEntry` (service_state.go:33-44): increment the
counter on the state key (`rclient.Incr(state)`) and return the new
value, paired with the updated keyspace. -/
def SignalEntry (s : Counters) (state : String) : Int × Counters :=
  let seq := s state + 1
  (seq, fun k => if k = state then seq else s k)

/-- The values returned by `n` successive `SignalEntry` calls on one key. -/
def signalEntryRun (s : Counters) (state : String) : Nat → List Int
  | 0 => []
  | n + 1 =>
    (SignalEntry s state).1 :: signalEntryRun (SignalEntry s state).2 state n

theorem signalEntryRun_eq (state : String) (n : Nat) :
    ∀ s : Counters, signalEntryRun s state n =
      (List.range n).map (fun i : Nat => s state + (i : Int) + 1) := by
  induction n with
  | zero => intro s; simp [signalEntryRun]
  | succ m ih =>
    intro s
    simp only [signalEntryRun, List.range_succ_eq_map, List.map_cons, List.map_map]
    refine List.cons_eq_cons.mpr ⟨by simp [SignalEntry], ?_⟩
    rw [ih]
    apply List.map_congr_left
    intro i _
    simp only [Function.comp, SignalEntry, if_pos rfl]
    push_cast
    ring

theorem signalEntryRun_chain (state : String) (n : Nat) :
    ∀ s : Counters, List.Chain' (fun a b : Int => b = a + 1) (signalEntryRun s state n) := by
  induction n with
  | zero => intro s; simp [signalEntryRun]
  | succ m ih =>
    intro s
    cases m with
    | zero => simp [signalEntryRun]
    | succ k =>
      have ihs := ih (SignalEntry s state).2
      simp only [signalEntryRun] at ihs ⊢
      rw [List.chain'_cons]
      refine ⟨?_, ihs⟩
      simp [SignalEntry]

/-- C3: starting from a fresh key, `n` `SignalEntry` calls on the same
state key return exactly `[1, 2, ..., n]`: each call returns the new
counter value, consecutive returns increase by exactly 1 (gap-free), and
the returned values are exactly the integers `1..n`. -/
theorem c3_signal_entry_sequence (s : Counters) (state : String) (n : Nat)
    (hfresh : s state = 0) :
    signalEntryRun s state n = (List.range n).map (fun i : Nat => (i : Int) + 1) ∧
    List.Chain' (fun a b : Int => b = a + 1) (signalEntryRun s state n) ∧
    ∀ m : Int, m ∈ signalEntryRun s state n ↔ 1 ≤ m ∧ m ≤ (n : Int) := by
  have heq := signalEntryRun_eq state n s
  rw [hfresh] at heq
  have heq2 : signalEntryRun s state n = (List.range n).map (fun i : Nat => (i : Int) + 1) := by
    rw [heq]
    apply List.map_congr_left
    intro i _
    ring
  refine ⟨heq2, signalEntryRun_chain state n s, ?_⟩
  intro m
  rw [heq2]
  simp only [List.mem_map, List.mem_range]
  constructor
  · rintro ⟨i, hi, rfl⟩
    constructor <;> omega
  · rintro ⟨h1, h2⟩
    refine ⟨(m - 1).toNat, ?_, ?_⟩ <;> omega

/-- A fresh counter keyspace. -/
def countersC3 : Counters := fun _ => 0

/-- Witness for C3: three calls on a fresh key return `[1, 2, 3]`. -/
theorem c3_signal_entry_sequence_witness :
    countersC3 "state" = 0 ∧
      signalEntryRun countersC3 "state" 3 =
        (List.range 3).map (fun i : Nat => (i : Int) + 1) :=
  ⟨rfl, (c3_signal_entry_sequence countersC3 "state" 3 rfl).1⟩

/-! ## Daemon request-id middleware (src/unnamed/part_008, daemon.New) -/

/-- An HTTP request, reduced to its header map. -/
def Request : Type := String → Option String

/-- `r.Header.Set(name, value)`. -/
def headerSet (r : Request) (name v : String) : Request :=
  fun k => if k = name then some v else r k

/-- The router middleware installed by `daemon.New` (part_008:86-92):
`r.Header.Set("X-Request-ID", uuid.New()[:8])` runs on every request
before the inner handler; `fresh` stands for the generated id. -/
def requestIdMiddleware (fresh : String) (r : Request) : Request :=
  headerSet r "X-Request-ID" fresh

/-- The id a handler reads via `r.Header.Get("X-Request-ID")`. -/
def observedRequestId (fresh : String) (r : Request) : Option String :=
  requestIdMiddleware fresh r "X-Request-ID"

/-- A request arriving with a client-supplied `X-Request-ID`. -/
def reqWithClientId : Request :=
  fun k => if k = "X-Request-ID" then some ("client-id-1") else none

/-- C9 counterexample: a request arriving with `X-Request-ID:
client-id-1` does not keep that value — the middleware overwrites it with
the server-generated id, so the handler observes the fresh id instead of
the client's. -/
theorem c9_client_id_not_kept_counterexample :
    reqWithClientId "X-Request-ID" = some ("client-id-1") ∧
      observedRequestId "f3a9b2c4" reqWithClientId ≠ some ("client-id-1") := by
  constructor
  · rfl
  · decide

/-- C9 (amended): every request the handlers observe carries an
`X-Request-ID`, because the middleware assigns a freshly generated id to
every request — overwriting any client-supplied value rather than keeping
it. -/
theorem c9_request_id_always_assigned (fresh : String) (r : Request) :
    observedRequestId fresh r = some fresh := by
  simp [observedRequestId, requestIdMiddleware, headerSet]

/-! ## Cluster resource admission (src/unnamed/part_007, ClusterK8sRunner) -/

/-- `sidecarCPUs = 0.2` (part_007:54): CPUs reserved per node for the sidecar. -/
def sidecarCPUs : ℚ := 0.2

/-- `utilisation = 0.85` (part_007:59): share of the remainder allocatable
to testground. -/
def utilisation : ℚ := 0.85

/-- A run group as the runner sees it (`api.RunGroup`): instance count
and the optional explicit CPU resource (`Resources.CPU`; `none` models
the empty string). -/
structure RunGroup where
  id : String
  instances : Nat
  resourcesCPU : Option ℚ

/-- The CPU demand of the groups (part_007:812-828): explicit CPU or the
default pod CPU, times the instance count, summed. The source accumulates
in a loop; the sum is the same value. -/
def neededCPUs (defaultPodCPU : ℚ) (groups : List RunGroup) : ℚ :=
  (groups.map (fun g => g.resourcesCPU.getD defaultPodCPU * (g.instances : ℚ))).sum

/-- `checkClusterResources` (part_007:785-836): with `nodes` plan-labeled
nodes of `nodeCPUs` allocatable CPUs each, the run fits iff
`availableCPUs * utilisation > neededCPUs`, strictly, where
`availableCPUs = nodes*nodeCPUs - nodes*sidecarCPUs`. -/
def checkClusterResources (groups : List RunGroup) (defaultPodCPU : ℚ)
    (nodes : Nat) (nodeCPUs : Int) : Bool :=
  let totalCPUs : Int := (nodes : Int) * nodeCPUs
  let availableCPUs : ℚ := (totalCPUs : ℚ) - (nodes : ℚ) * sidecarCPUs
  decide (availableCPUs * utilisation > neededCPUs defaultPodCPU groups)

/-- The pod names `Run` creates, one per instance per group (part_007:227). -/
def podNames (plan runId : String) (groups : List RunGroup) : List String :=
  groups.flatMap (fun g => (List.range g.instances).map
    (fun i => "tg-" ++ plan ++ "-" ++ runId ++ "-" ++ g.id ++ "-" ++ toString i))

/-- The admission prefix of `ClusterK8sRunner.Run` (part_007:169-176):
the resource check runs before any pod is created; if it fails, `Run`
returns the error with no pod created, otherwise it goes on to create one
pod per instance. -/
def clusterRunAdmission (plan runId : String) (groups : List RunGroup)
    (defaultPodCPU : ℚ) (nodes : Nat) (nodeCPUs : Int) :
    List String × Except String Unit :=
  if checkClusterResources groups defaultPodCPU nodes nodeCPUs then
    (podNames plan runId groups, .ok ())
  else
    ([], .error ("too many test instances requested, resize cluster if you need more capacity"))

/-- C7: the runner admits a cluster run iff the summed requested CPU
across all groups' instances (default per-pod CPU where unset) is
strictly below `(plan-labeled node count × allocatable CPU per node −
node count × per-node sidecar reservation) × 0.85`; when it is not, `Run`
returns an error and creates no pod. -/
theorem c7_cluster_resource_admission (plan runId : String) (groups : List RunGroup)
    (defaultPodCPU : ℚ) (nodes : Nat) (nodeCPUs : Int) :
    (checkClusterResources groups defaultPodCPU nodes nodeCPUs = true ↔
      neededCPUs defaultPodCPU groups <
        ((nodes : ℚ) * (nodeCPUs : ℚ) - (nodes : ℚ) * sidecarCPUs) * utilisation) ∧
    clusterRunAdmission plan runId groups defaultPodCPU nodes nodeCPUs =
      (if neededCPUs defaultPodCPU groups <
          ((nodes : ℚ) * (nodeCPUs : ℚ) - (nodes : ℚ) * sidecarCPUs) * utilisation then
        (podNames plan runId groups, .ok ())
      else
        ([], .error ("too many test instances requested, resize cluster if you need more capacity"))) := by
  have hiff : checkClusterResources groups defaultPodCPU nodes nodeCPUs = true ↔
      neededCPUs defaultPodCPU groups <
        ((nodes : ℚ) * (nodeCPUs : ℚ) - (nodes : ℚ) * sidecarCPUs) * utilisation := by
    unfold checkClusterResources
    rw [decide_eq_true_eq]
    constructor
    · intro h
      push_cast at h ⊢
      linarith
    · intro h
      push_cast at h ⊢
      linarith
  refine ⟨hiff, ?_⟩
  unfold clusterRunAdmission
  by_cases hc : checkClusterResources groups defaultPodCPU nodes nodeCPUs = true
  · rw [if_pos hc, if_pos (hiff.mp hc)]
  · have hc2 : checkClusterResources groups defaultPodCPU nodes nodeCPUs = false := by
      cases h : checkClusterResources groups defaultPodCPU nodes nodeCPUs
      · rfl
      · exact absurd h hc
    rw [hc2]
    rw [if_neg (fun hlt => hc (hiff.mpr hlt))]
    simp

/-! ## Sidecar network-config loop (src/unnamed/part_012, sidecar.Run) -/

/-- A network configuration message (`sync.NetworkConfig`), reduced to
the fields the loop reads: the network to configure and the state counter
to signal afterwards. -/
structure NetworkConfig where
  network : String
  state : String
deriving DecidableEq

/-- Observable actions of the sidecar loop, tagged with the index of the
message being processed. -/
inductive SidecarEvent where
  | applied (i : Nat)
  | applyFailed (i : Nat)
  | signalled (i : Nat) (state : String)
deriving DecidableEq

/-- The message loop of `sidecar.Run` (part_012:81-90): for each received
`NetworkConfig`, first apply it to the instance's network
(`instance.Network.ConfigureNetwork`, here the abstract `applyNet`); on
failure return the error, signalling nothing for that message; on success
increment the counter named by the message's `state` field
(`instance.Writer.SignalEntry`) and continue. Returns the outcome, the
final counters, and the emitted event trace; `i` is the index of the
first pending message. -/
def sidecarLoop {Net : Type} (applyNet : Net → NetworkConfig → Option Net) :
    List NetworkConfig → Net → Counters → Nat →
      Except String Unit × Counters × List SidecarEvent
  | [], _, cnt, _ => (.ok (), cnt, [])
  | cfg :: rest, net, cnt, i =>
    match applyNet net cfg with
    | none => (.error ("failed to update network " ++ cfg.network), cnt, [.applyFailed i])
    | some net2 =>
      let out := sidecarLoop applyNet rest net2 (SignalEntry cnt cfg.state).2 (i + 1)
      (out.1, out.2.1, .applied i :: .signalled i cfg.state :: out.2.2)

/-- Thread the network through a list of successfully applied messages. -/
def applyChain {Net : Type} (applyNet : Net → NetworkConfig → Option Net) :
    Net → List NetworkConfig → Option Net
  | net, [] => some net
  | net, cfg :: rest =>
    match applyNet net cfg with
    | none => none
    | some net2 => applyChain applyNet net2 rest

/-- Signal each state in order (the counter effect of a run of messages). -/
def signalAll (cnt : Counters) : List String → Counters
  | [] => cnt
  | st :: rest => signalAll (SignalEntry cnt st).2 rest

/-- The apply-then-signal event pairs for a run of messages starting at
index `i`. -/
def pairTrace : List NetworkConfig → Nat → List SidecarEvent
  | [], _ => []
  | m :: rest, i => .applied i :: .signalled i m.state :: pairTrace rest (i + 1)

theorem sidecarLoop_fail_split {Net : Type}
    (applyNet : Net → NetworkConfig → Option Net)
    (bad : NetworkConfig) (post : List NetworkConfig) :
    ∀ (pre : List NetworkConfig) (net netk : Net) (cnt : Counters) (i : Nat),
      applyChain applyNet net pre = some netk →
      applyNet netk bad = none →
      sidecarLoop applyNet (pre ++ bad :: post) net cnt i =
        (.error ("failed to update network " ++ bad.network),
          signalAll cnt (pre.map (fun m => m.state)),
          pairTrace pre i ++ [.applyFailed (i + pre.length)]) := by
  intro pre
  induction pre with
  | nil =>
    intro net netk cnt i hpre hfail
    simp only [applyChain] at hpre
    cases hpre
    simp [sidecarLoop, hfail, signalAll, pairTrace]
  | cons m rest ih =>
    intro net netk cnt i hpre hfail
    simp only [applyChain] at hpre
    cases hm : applyNet net m with
    | none => rw [hm] at hpre; exact Option.noConfusion hpre
    | some net2 =>
      rw [hm] at hpre
      change applyChain applyNet net2 rest = some netk at hpre
      simp only [List.cons_append, sidecarLoop, hm, List.append_eq]
      rw [ih net2 netk (SignalEntry cnt m.state).2 (i + 1) hpre hfail]
      simp only [signalAll, pairTrace, List.length_cons, List.cons_append]
      have hidx : i + 1 + rest.length = i + (rest.length + 1) := by omega
      rw [hidx]

theorem sidecarLoop_ok_run {Net : Type}
    (applyNet : Net → NetworkConfig → Option Net) :
    ∀ (msgs : List NetworkConfig) (net netEnd : Net) (cnt : Counters) (i : Nat),
      applyChain applyNet net msgs = some netEnd →
      sidecarLoop applyNet msgs net cnt i =
        (.ok (), signalAll cnt (msgs.map (fun m => m.state)), pairTrace msgs i) := by
  intro msgs
  induction msgs with
  | nil =>
    intro net netEnd cnt i _
    simp [sidecarLoop, signalAll, pairTrace]
  | cons m rest ih =>
    intro net netEnd cnt i hpre
    simp only [applyChain] at hpre
    cases hm : applyNet net m with
    | none => rw [hm] at hpre; exact Option.noConfusion hpre
    | some net2 =>
      rw [hm] at hpre
      change applyChain applyNet net2 rest = some netEnd at hpre
      simp only [sidecarLoop, hm]
      rw [ih net2 netEnd (SignalEntry cnt m.state).2 (i + 1) hpre]
      simp [signalAll, pairTrace]

/-- Indices appearing in `pairTrace pre i` stay below `i + pre.length`, so
the failed message's signal is never in the prefix trace. -/
theorem signalled_not_mem_pairTrace (s : String) :
    ∀ (pre : List NetworkConfig) (i j : Nat), i + pre.length ≤ j →
      SidecarEvent.signalled j s ∉ pairTrace pre i := by
  intro pre
  induction pre with
  | nil => intro i j _; simp [pairTrace]
  | cons m rest ih =>
    intro i j hj
    simp only [pairTrace, List.mem_cons, List.length_cons] at *
    rintro (h | h | h)
    · exact SidecarEvent.noConfusion h
    · have := SidecarEvent.signalled.inj h
      omega
    · exact ih (i + 1) j (by omega) h

/-- C8: for every `NetworkConfig` message the sidecar loop receives,
the configuration is applied to the instance network first and only then
is the counter named by the message's `state` field incremented (the
trace interleaves `applied i` immediately before `signalled i`); when the
apply of a message fails, the loop returns an error, the counters reflect
only the earlier messages, and the failed message's state counter is
never signalled. -/
theorem c8_sidecar_apply_then_signal {Net : Type}
    (applyNet : Net → NetworkConfig → Option Net)
    (pre post : List NetworkConfig) (bad : NetworkConfig)
    (net netk : Net) (cnt : Counters)
    (hpre : applyChain applyNet net pre = some netk)
    (hfail : applyNet netk bad = none) :
    sidecarLoop applyNet (pre ++ bad :: post) net cnt 0 =
      (.error ("failed to update network " ++ bad.network),
        signalAll cnt (pre.map (fun m => m.state)),
        pairTrace pre 0 ++ [.applyFailed pre.length]) ∧
    (∀ s, SidecarEvent.signalled pre.length s ∉
        (sidecarLoop applyNet (pre ++ bad :: post) net cnt 0).2.2) ∧
    (∀ (msgs : List NetworkConfig) (netEnd : Net),
      applyChain applyNet net msgs = some netEnd →
      sidecarLoop applyNet msgs net cnt 0 =
        (.ok (), signalAll cnt (msgs.map (fun m => m.state)), pairTrace msgs 0)) := by
  have hmain := sidecarLoop_fail_split applyNet bad post pre net netk cnt 0 hpre hfail
  refine ⟨by simpa using hmain, ?_, ?_⟩
  · intro s
    rw [hmain]
    simp only [List.mem_append, List.mem_singleton]
    rintro (h | h)
    · exact signalled_not_mem_pairTrace s pre 0 pre.length (by omega) h
    · exact SidecarEvent.noConfusion h
  · intro msgs netEnd hrun
    exact sidecarLoop_ok_run applyNet msgs net netEnd cnt 0 hrun

/-- A concrete apply function that fails on the network named `badnet`. -/
def applyNetC8 : Unit → NetworkConfig → Option Unit :=
  fun _ cfg => if cfg.network = "badnet" then none else some ()

/-- Witness for C8: one message applies and is signalled, the second
fails; the loop errors, and no signal for the failed message appears. -/
theorem c8_sidecar_apply_then_signal_witness :
    applyChain applyNetC8 () [⟨"data", "s1"⟩] = some () ∧
      applyNetC8 () ⟨"badnet", "s2"⟩ = none ∧
      sidecarLoop applyNetC8 ([⟨"data", "s1"⟩] ++ ⟨"badnet", "s2"⟩ :: []) () countersC3 0 =
        (.error ("failed to update network " ++ "badnet"),
          signalAll countersC3 ([⟨"data", "s1"⟩].map (fun m => NetworkConfig.state m)),
          pairTrace [⟨"data", "s1"⟩] 0 ++ [.applyFailed 1]) :=
  ⟨rfl, rfl,
    (c8_sidecar_apply_then_signal applyNetC8 [⟨"data", "s1"⟩] [] ⟨"badnet", "s2"⟩
      () () countersC3 rfl rfl).1⟩

/-! ## Subtree publish/subscribe (sdk sync)

The `Writer.Write` / `Watcher.Subscribe` implementation is not part of
this snapshot (only its tests, src/sdk/sync/redis_test.go, are); the
stream semantics is modelled from the spec. -/

/-- Modelled from the spec: a subtree is an append-only stream of opaque
entries scoped to `(run-id, key)`; the 1-based position in the stream is
the entry's sequence number. -/
abbrev SubtreeStream : Type := List String

/-- Modelled from the spec: `publish` appends one entry to the stream and
returns the new 1-based sequence number. -/
def publish (st : SubtreeStream) (v : String) : SubtreeStream × Int :=
  (st ++ [v], (st.length : Int) + 1)

/-- A subscriber's read position in the stream. -/
structure SubPos where
  pos : Nat
deriving DecidableEq

/-- Modelled from the spec: one long-poll read returns every entry past
the subscriber's position, in stream order, and advances the position to
the stream's end. -/
def pollRead (st : SubtreeStream) (s : SubPos) : List String × SubPos :=
  (st.drop s.pos, ⟨st.length⟩)

/-- Modelled from the spec: after the history replay the subscriber tails
the stream, reading after each later publish. -/
def tailReads (cur : SubtreeStream) (s : SubPos) : List String → List String
  | [] => []
  | v :: vs =>
    let st2 := (publish cur v).1
    let r := pollRead st2 s
    r.1 ++ tailReads st2 r.2 vs

/-- Modelled from the spec: a subscriber that subscribes when the stream
holds `atSub` first replays history from position 0, then tails the
stream across the later publishes `later`. The list of deliveries, in
order. -/
def subscriberDeliveries (atSub : SubtreeStream) (later : List String) : List String :=
  let r := pollRead atSub ⟨0⟩
  r.1 ++ tailReads atSub r.2 later

theorem tailReads_eq (vs : List String) :
    ∀ (cur : SubtreeStream) (s : SubPos), s.pos = cur.length →
      tailReads cur s vs = vs := by
  induction vs with
  | nil => intro cur s _; rfl
  | cons v rest ih =>
    intro cur s hs
    simp only [tailReads, publish, pollRead, hs]
    rw [List.drop_left]
    rw [ih (cur ++ [v]) ⟨(cur ++ [v]).length⟩ rfl]
    rfl

/-- C4: a subscriber subscribing at stream state `atSub` receives first
every entry published before its subscription, in write order, and then
every later-published entry in write order — the deliveries are exactly
`atSub ++ later`, so every entry with sequence ≤ `atSub.length` arrives
before any entry with a larger sequence; and `publish` appends the entry
and returns the new 1-based sequence number `length + 1`. -/
theorem c4_subscriber_history_then_tail (atSub : SubtreeStream) (later : List String) :
    subscriberDeliveries atSub later = atSub ++ later ∧
    (∀ (st : SubtreeStream) (v : String), (publish st v).2 = (st.length : Int) + 1) ∧
    (∀ (st : SubtreeStream) (v : String), (publish st v).1 = st ++ [v]) := by
  refine ⟨?_, fun st v => rfl, fun st v => rfl⟩
  unfold subscriberDeliveries pollRead
  simp only [List.drop_zero]
  rw [tailReads_eq later atSub ⟨atSub.length⟩ rfl]

/-! ## Barrier (src/pkg/sync/service_state.go; worker modelled from the spec) -/

/-- What a waiting barrier observes over time: a counter-change
notification carrying the new value, or the caller's context being
cancelled. -/
inductive BarrierEvent where
  | bump (v : Int)
  | cancel
deriving DecidableEq

/-- Modelled from the spec: the barrier worker behind `barrierCh` (not in
this snapshot) watches counter-change notifications for the state key and
resolves nil once the counter reaches the target, or an error when the
context is cancelled first; `none` means still waiting when the observed
trace ends. -/
def barrierWorker (target : Int) : List BarrierEvent → Option (Except String Unit)
  | [] => none
  | .bump v :: rest =>
    if v ≥ target then some (.ok ()) else barrierWorker target rest
  | .cancel :: _ => some (.error ("context canceled"))

/-- `DefaultService.Barrier` (service_state.go:9-31): a zero target is
satisfied immediately, before the barrier is handed to the worker, so the
store is never consulted; otherwise the outcome is the worker's. The
boolean records whether the store was consulted. -/
def Barrier (target : Int) (events : List BarrierEvent) :
    Option (Except String Unit) × Bool :=
  if target = 0 then (some (.ok ()), false)
  else (barrierWorker target events, true)

theorem barrierWorker_skip (target : Int) (tail : List BarrierEvent) :
    ∀ pre : List BarrierEvent,
      (∀ e ∈ pre, ∀ w, e = .bump w → w < target) →
      (∀ e ∈ pre, e ≠ .cancel) →
      barrierWorker target (pre ++ tail) = barrierWorker target tail := by
  intro pre
  induction pre with
  | nil => intro _ _; rfl
  | cons e rest ih =>
    intro hb hc
    cases e with
    | bump w =>
      have hw : w < target := hb _ (List.mem_cons_self _ _) w rfl
      simp only [List.cons_append, barrierWorker, if_neg (by omega : ¬ w ≥ target)]
      exact ih (fun e he => hb e (List.mem_cons_of_mem _ he))
        (fun e he => hc e (List.mem_cons_of_mem _ he))
    | cancel =>
      exact absurd rfl (hc _ (List.mem_cons_self _ _))

/-- C5: `Barrier(state, target, ctx)` resolves nil once the counter for
the state reaches the target; it resolves an error if the context is
cancelled before that; and a zero target is satisfied immediately,
without consulting the store at all. -/
theorem c5_barrier_semantics (target v : Int)
    (events pre post : List BarrierEvent)
    (hlow : ∀ e ∈ pre, ∀ w, e = .bump w → w < target)
    (hnc : ∀ e ∈ pre, e ≠ .cancel) :
    (target = 0 → Barrier target events = (some (.ok ()), false)) ∧
    (target ≠ 0 → v ≥ target →
      Barrier target (pre ++ .bump v :: post) = (some (.ok ()), true)) ∧
    (target ≠ 0 →
      Barrier target (pre ++ .cancel :: post) =
        (some (.error ("context canceled")), true)) := by
  refine ⟨?_, ?_, ?_⟩
  · intro h0
    unfold Barrier
    rw [if_pos h0]
  · intro hne hv
    unfold Barrier
    rw [if_neg hne, barrierWorker_skip target (.bump v :: post) pre hlow hnc]
    simp only [barrierWorker, if_pos hv]
  · intro hne
    unfold Barrier
    rw [if_neg hne, barrierWorker_skip target (.cancel :: post) pre hlow hnc]
    rfl

/-- Witness for C5: a zero-target barrier resolves immediately without
the store; a target-2 barrier resolves after the counter reaches 2, and
resolves an error when cancellation comes first. -/
theorem c5_barrier_semantics_witness :
    Barrier 0 [] = (some (.ok ()), false) ∧
      Barrier 2 ([.bump 1] ++ .bump 2 :: []) = (some (.ok ()), true) ∧
      Barrier 2 ([.bump 1] ++ .cancel :: []) =
        (some (.error ("context canceled")), true) := by
  have h0 := c5_barrier_semantics 0 0 [] [] [] (by simp) (by simp)
  have h2 := c5_barrier_semantics 2 2 [] [.bump 1] []
    (by
      intro e he w hw
      rw [List.mem_singleton] at he
      subst he
      injection hw with h
      omega)
    (by decide)
  exact ⟨h0.1 rfl, h2.2.1 (by decide) (by decide), h2.2.2 (by decide)⟩

/-! ## Task queue ordering (pkg/task)

The heap-backed `taskQueue` is not part of this snapshot (only its test,
src/pkg/task/task_test.go, is); the queue is modelled from the spec: a
classic max-heap keyed on (priority desc, created asc). -/

/-- A queued task, reduced to the two heap keys (`Task.Priority`,
`Task.Created`). -/
structure QTask where
  priority : Int
  created : Int
deriving DecidableEq

/-- Modelled from the spec: the heap order — higher priority first, ties
broken by the older `created` timestamp. -/
def taskLess (a b : QTask) : Bool :=
  decide (b.priority < a.priority) ||
    (decide (a.priority = b.priority) && decide (a.created < b.created))

theorem taskLess_iff (a b : QTask) : taskLess a b = true ↔
    (b.priority < a.priority ∨ (a.priority = b.priority ∧ a.created < b.created)) := by
  simp [taskLess]

theorem taskLess_false_iff (a b : QTask) : taskLess a b = false ↔
    ¬(b.priority < a.priority ∨ (a.priority = b.priority ∧ a.created < b.created)) := by
  rw [← taskLess_iff]
  cases taskLess a b <;> simp

theorem taskLess_neg_trans {a b c : QTask} (h1 : taskLess a c = true)
    (h2 : taskLess a b = false) (h3 : taskLess b c = false) : False := by
  rw [taskLess_iff] at h1
  rw [taskLess_false_iff] at h2 h3
  omega

/-- The better of two tasks; the first argument wins ties (the heap keeps
one of them on top). -/
def preferred (a b : QTask) : QTask := if taskLess b a then b else a

theorem preferred_mem_pair (t u : QTask) : preferred t u = t ∨ preferred t u = u := by
  unfold preferred
  by_cases hc : taskLess u t = true
  · rw [if_pos hc]; exact Or.inr rfl
  · rw [if_neg (by simp [hc])]; exact Or.inl rfl

theorem popBest_mem (t : QTask) (ts : List QTask) : ts.foldl preferred t ∈ t :: ts := by
  induction ts generalizing t with
  | nil => simp
  | cons u rest ih =>
    have h := ih (preferred t u)
    simp only [List.foldl_cons]
    rcases List.mem_cons.mp h with hh | hh
    · rw [hh]
      rcases preferred_mem_pair t u with hp | hp
      · rw [hp]; exact List.mem_cons_self t _
      · rw [hp]; exact List.mem_cons_of_mem _ (List.mem_cons_self u rest)
    · exact List.mem_cons_of_mem _ (List.mem_cons_of_mem _ hh)

theorem popBest_le (t : QTask) (ts : List QTask) :
    ∀ x ∈ t :: ts, taskLess x (ts.foldl preferred t) = false := by
  induction ts generalizing t with
  | nil =>
    intro x hx
    simp only [List.mem_singleton] at hx
    simp only [List.foldl_nil]
    subst hx
    rw [taskLess_false_iff]
    omega
  | cons u rest ih =>
    intro x hx
    simp only [List.foldl_cons]
    have hp := ih (preferred t u)
    have hql : taskLess t (preferred t u) = false ∧ taskLess u (preferred t u) = false := by
      unfold preferred
      by_cases hc : taskLess u t = true
      · rw [if_pos hc]
        rw [taskLess_iff] at hc
        constructor
        · rw [taskLess_false_iff]; omega
        · rw [taskLess_false_iff]; omega
      · have hcf : taskLess u t = false := by
          cases h : taskLess u t
          · rfl
          · exact absurd h hc
        rw [if_neg hc]
        constructor
        · rw [taskLess_false_iff]; omega
        · exact hcf
    have hbest := hp (preferred t u) (List.mem_cons_self _ _)
    rcases List.mem_cons.mp hx with h1 | h1
    · rw [h1]
      cases h3 : taskLess t (rest.foldl preferred (preferred t u))
      · rfl
      · exact (taskLess_neg_trans h3 hql.1 hbest).elim
    · rcases List.mem_cons.mp h1 with h2 | h2
      · rw [h2]
        cases h3 : taskLess u (rest.foldl preferred (preferred t u))
        · rfl
        · exact (taskLess_neg_trans h3 hql.2 hbest).elim
      · exact hp x (List.mem_cons_of_mem _ h2)

/-- Modelled from the spec: repeatedly pop the heap top. The fuel bounds
the recursion; `popAll` supplies the queue's length, which is exactly
enough. -/
def popAllFuel : Nat → List QTask → List QTask
  | 0, _ => []
  | _ + 1, [] => []
  | n + 1, t :: ts =>
    let b := ts.foldl preferred t
    b :: popAllFuel n ((t :: ts).erase b)

/-- Pop every task off the queue, best-first. -/
def popAll (q : List QTask) : List QTask := popAllFuel q.length q

theorem popAllFuel_perm :
    ∀ (n : Nat) (q : List QTask), q.length ≤ n → List.Perm (popAllFuel n q) q := by
  intro n
  induction n with
  | zero =>
    intro q hq
    rw [List.length_eq_zero.mp (Nat.le_zero.mp hq)]
    exact List.Perm.refl _
  | succ m ih =>
    intro q hq
    cases q with
    | nil => exact List.Perm.refl _
    | cons t ts =>
      simp only [popAllFuel]
      have hb := popBest_mem t ts
      have hlen : ((t :: ts).erase (ts.foldl preferred t)).length ≤ m := by
        rw [List.length_erase_of_mem hb]
        simp only [List.length_cons] at hq ⊢
        omega
      have p1 := (ih _ hlen).cons (ts.foldl preferred t)
      have p2 := List.perm_cons_erase hb
      exact p1.trans p2.symm

theorem popAllFuel_sorted :
    ∀ (n : Nat) (q : List QTask), q.length ≤ n →
      List.Pairwise (fun a b => taskLess b a = false) (popAllFuel n q) := by
  intro n
  induction n with
  | zero => intro q _; simp [popAllFuel]
  | succ m ih =>
    intro q hq
    cases q with
    | nil => simp [popAllFuel]
    | cons t ts =>
      simp only [popAllFuel]
      have hb := popBest_mem t ts
      have hlen : ((t :: ts).erase (ts.foldl preferred t)).length ≤ m := by
        rw [List.length_erase_of_mem hb]
        simp only [List.length_cons] at hq ⊢
        omega
      rw [List.pairwise_cons]
      refine ⟨?_, ih _ hlen⟩
      intro y hy
      have hy2 : y ∈ (t :: ts).erase (ts.foldl preferred t) :=
        ((popAllFuel_perm m _ hlen).mem_iff).mp hy
      exact popBest_le t ts y (List.erase_subset _ _ hy2)

/-- C6: repeatedly popping the modelled task queue yields a sequence
sorted by (priority desc, created asc) — no later-popped task orders
strictly before an earlier-popped one — and the popped sequence is a
permutation of the queued tasks; in particular, three tasks submitted in
order A, B, C with priorities 1, 5, 1 (created timestamps increasing with
submission order) pop as B, then A, then C. -/
theorem c6_queue_pops_priority_then_age :
    (∀ q : List QTask,
      List.Pairwise (fun a b => taskLess b a = false) (popAll q) ∧
        List.Perm (popAll q) q) ∧
    popAll [⟨1, 0⟩, ⟨5, 1⟩, ⟨1, 2⟩] = [⟨5, 1⟩, ⟨1, 0⟩, ⟨1, 2⟩] := by
  refine ⟨fun q => ⟨popAllFuel_sorted q.length q le_rfl, popAllFuel_perm q.length q le_rfl⟩, ?_⟩
  decide
